import Mathlib

/-!
Shallow embedding of the F1 LED circuit simulation (src/src/main.rs).

Modelling conventions:
* `f64` coordinates, times and distances are modelled as exact rationals `ℚ`;
  the Euclidean-distance claims are stated with `Real.sqrt` over the embedded
  squared distances.
* `DateTime<Utc>` timestamps are modelled as integers `ℤ` (any linearly
  ordered time type works for the sorting claims).
* `Instant`-based wall-clock reading is modelled by passing the elapsed
  seconds since `start_time` as an explicit parameter to `update_race`.
* The HTTP layer of `fetch_data` is abstracted as a response environment
  `resp : ℕ → ℕ → FetchResult` giving, for a driver number and an attempt
  index, the classified response; the Rust code issues exactly one request
  (attempt 0) per driver.
* The fixed-size array `[Option<DriverData>; 20]` is modelled as a
  `List (Option DriverData)` of length 20 (`List.replicate 20 none` fresh).
-/

namespace F1Led

/-- Embeds Rust `LocationData { x, y, date, driver_number }`. -/
structure LocationData where
  x : ℚ
  y : ℚ
  date : ℤ
  driver_number : ℕ
deriving DecidableEq

/-- Embeds Rust `DriverData { driver_number, led_num }`. -/
structure DriverData where
  driver_number : ℕ
  led_num : ℕ
deriving DecidableEq

/-- Embeds Rust `UpdateFrame { drivers: [Option<DriverData>; 20] }`. -/
structure UpdateFrame where
  drivers : List (Option DriverData)
deriving DecidableEq

/-- Embeds Rust `LedCoordinate { x_led, y_led, led_number }`. -/
structure LedCoordinate where
  x_led : ℚ
  y_led : ℚ
  led_number : ℕ
deriving DecidableEq

/-- Embeds `egui::Color32` as an rgb triple. -/
structure Color32 where
  r : ℕ
  g : ℕ
  b : ℕ
deriving DecidableEq

/-- Embeds Rust `DriverInfo { number, name, team, color }`. -/
structure DriverInfo where
  number : ℕ
  name : String
  team : String
  color : Color32
deriving DecidableEq

/-- `egui::Color32::WHITE`. -/
def whiteColor : Color32 := ⟨255, 255, 255⟩

/-! ## Spatial resolution (inside `generate_update_frames`) -/

/-- The squared Euclidean distance
`(data.x - coord.x_led)^2 + (data.y - coord.y_led)^2` computed (under `sqrt`)
in the `map` closure of `generate_update_frames` (main.rs:575-576). -/
def sqDist (d : LocationData) (c : LedCoordinate) : ℚ :=
  (d.x - c.x_led) ^ 2 + (d.y - c.y_led) ^ 2

/-- One comparison step of `Iterator::min_by` over `(coord, distance)` pairs:
the accumulator is kept unless the new element is strictly smaller, so the
first minimum in iteration order wins (main.rs:572-584).  Comparing squared
distances is equivalent to comparing `sqrt` distances since `sqrt` is
strictly monotone on nonnegative reals. -/
def minByStep (d : LocationData) (best c : LedCoordinate) : LedCoordinate :=
  if sqDist d c < sqDist d best then c else best

/-- `coordinates.iter().map(...).min_by(...)` of main.rs:571-584: the first
coordinate of minimal Euclidean distance, `none` on the empty list (where the
Rust code would panic on `unwrap`). -/
def nearestCoord (d : LocationData) : List LedCoordinate → Option LedCoordinate
  | [] => none
  | c :: cs => some (cs.foldl (minByStep d) c)

/-! ## Frame building (`generate_update_frames`, main.rs:562-614) -/

/-- A fresh `UpdateFrame { drivers: [None; 20] }`. -/
def emptyFrame : UpdateFrame := ⟨List.replicate 20 none⟩

/-- The slot-insertion loop of main.rs:592-597: place `d` into the first
`None` slot, leaving the list unchanged when every slot is occupied. -/
def insertDriver (d : DriverData) : List (Option DriverData) → List (Option DriverData)
  | [] => []
  | none :: rest => some d :: rest
  | some x :: rest => some x :: insertDriver d rest

/-- `frame.drivers.iter().all(|slot| slot.is_some())` (main.rs:600). -/
def frameFull (f : UpdateFrame) : Bool :=
  f.drivers.all (fun s => s.isSome)

/-- `frame.drivers.iter().any(|slot| slot.is_some())` (main.rs:609). -/
def frameHasAny (f : UpdateFrame) : Bool :=
  f.drivers.any (fun s => s.isSome)

/-- Number of occupied slots of a frame. -/
def countSome (f : UpdateFrame) : ℕ :=
  f.drivers.countP (fun s => s.isSome)

/-- Total number of assignments across a list of frames. -/
def sumAssign (fs : List UpdateFrame) : ℕ :=
  (fs.map countSome).sum

/-- The body of the `for data in raw_data` loop of main.rs:571-606, acting on
the accumulator `(sealed frames, open frame)`: resolve the nearest
coordinate, insert the `DriverData` into the first empty slot, and seal the
frame when it becomes full.  The `none` branch of `nearestCoord` (empty
coordinate set) is unreachable under the claims' hypotheses; the Rust code
panics there. -/
def genStep (coords : List LedCoordinate) (acc : List UpdateFrame × UpdateFrame)
    (data : LocationData) : List UpdateFrame × UpdateFrame :=
  match nearestCoord data coords with
  | none => acc
  | some c =>
    let dd : DriverData := ⟨data.driver_number, c.led_number⟩
    let f : UpdateFrame := ⟨insertDriver dd acc.2.drivers⟩
    if frameFull f then (acc.1 ++ [f], emptyFrame) else (acc.1, f)

/-- Embeds `generate_update_frames` (main.rs:562-614): fold the loop body
over the raw data starting from `(vec![], [None; 20])`, then push the last
open frame when it holds any data. -/
def generate_update_frames (raw : List LocationData) (coords : List LedCoordinate) :
    List UpdateFrame :=
  if frameHasAny (raw.foldl (genStep coords) ([], emptyFrame)).2 then
    (raw.foldl (genStep coords) ([], emptyFrame)).1 ++
      [(raw.foldl (genStep coords) ([], emptyFrame)).2]
  else
    (raw.foldl (genStep coords) ([], emptyFrame)).1

/-! ## Acquisition (`fetch_data`, main.rs:426-459) -/

/-- Classified outcome of one HTTP request, abstracting
`resp.status().is_success()` plus the decoded body. -/
inductive FetchResult where
  | success : List LocationData → FetchResult
  | rateLimited : FetchResult
  | failure : FetchResult
deriving DecidableEq

/-- The hard-coded driver-number roster of main.rs:428-430. -/
def driver_numbers : List ℕ :=
  [1, 2, 4, 10, 11, 14, 16, 18, 20, 22, 23, 24, 27, 31, 40, 44, 55, 63, 77, 81]

/-- The retention test of main.rs:446: `d.x != 0.0 && d.y != 0.0`. -/
def keepSample (d : LocationData) : Bool :=
  decide (d.x ≠ 0) && decide (d.y ≠ 0)

/-- The `for driver_number in driver_numbers` loop of main.rs:437-454: each
driver gets exactly one request (attempt 0); on success its samples are
filtered by `keepSample` and appended to the accumulator, on any other
outcome the driver's data is skipped with no retry. -/
def fetchLoop (resp : ℕ → ℕ → FetchResult) : List ℕ → List LocationData
  | [] => []
  | dn :: rest =>
    (match resp dn 0 with
     | FetchResult.success data => data.filter keepSample
     | _ => []) ++ fetchLoop resp rest

/-- Stable insertion of a sample into a date-sorted list: `d` goes after all
elements strictly earlier than it and before the first element not earlier. -/
def insertByDate (d : LocationData) : List LocationData → List LocationData
  | [] => [d]
  | e :: es => if e.date < d.date then e :: insertByDate d es else d :: e :: es

/-- Stable sort by the `date` key, embedding `all_data.sort_by_key(|d| d.date)`
(main.rs:457); Rust's slice sort is stable. -/
def sortByDate : List LocationData → List LocationData
  | [] => []
  | d :: rest => insertByDate d (sortByDate rest)

/-- Embeds `fetch_data` (main.rs:426-459): accumulate the per-driver
responses over the fixed roster, then stably sort by `date`. -/
def fetch_data (resp : ℕ → ℕ → FetchResult) : List LocationData :=
  sortByDate (fetchLoop resp driver_numbers)

/-! ## Playback (`PlotApp`, main.rs:96-170) -/

/-- Embeds the `PlotApp` state (main.rs:96-107); `start_time` is replaced by
passing the elapsed wall-clock seconds to `update_race` directly. -/
structure PlotApp where
  update_rate_ms : ℕ
  frames : List UpdateFrame
  led_coordinates : List LedCoordinate
  race_time : ℚ
  race_started : Bool
  driver_info : List DriverInfo
  current_index : ℕ
  led_states : List (ℕ × Color32)
  speed : ℤ
deriving DecidableEq

/-- Embeds `PlotApp::new` (main.rs:110-128). -/
def PlotApp.new (update_rate_ms : ℕ) (frames : List UpdateFrame)
    (led_coordinates : List LedCoordinate) (driver_info : List DriverInfo) : PlotApp :=
  { update_rate_ms := update_rate_ms
    frames := frames
    led_coordinates := led_coordinates
    race_time := 0
    race_started := false
    driver_info := driver_info
    current_index := 0
    led_states := []
    speed := 1 }

/-- Embeds `PlotApp::reset` (main.rs:130-136). -/
def PlotApp.reset (s : PlotApp) : PlotApp :=
  { s with race_time := 0, race_started := false, current_index := 0, led_states := [] }

/-- `HashMap::insert` on the led-state map: replace any binding of the key. -/
def hmInsert (m : List (ℕ × Color32)) (k : ℕ) (v : Color32) : List (ℕ × Color32) :=
  m.filter (fun p => p.1 != k) ++ [(k, v)]

/-- The color lookup of main.rs:162-164:
`driver_info.iter().find(...)` with `map_or(WHITE, ...)`. -/
def lookupColor (info : List DriverInfo) (n : ℕ) : Color32 :=
  match info.find? (fun d => d.number == n) with
  | some d => d.color
  | none => whiteColor

/-- The insertion loop of main.rs:160-167 building the led-state map from
one frame. -/
def buildLedStates (info : List DriverInfo) (f : UpdateFrame) : List (ℕ × Color32) :=
  f.drivers.foldl
    (fun m od =>
      match od with
      | some drv => hmInsert m drv.led_num (lookupColor info drv.driver_number)
      | none => m)
    []

/-- Embeds `PlotApp::update_led_states` (main.rs:154-169): clear the map;
when `current_index > 0` rebuild it from `frames[current_index - 1]` (the
`getD` default is irrelevant: reachable states keep the access in bounds). -/
def PlotApp.update_led_states (s : PlotApp) : PlotApp :=
  if s.current_index > 0 then
    { s with led_states :=
        buildLedStates s.driver_info (s.frames.getD (s.current_index - 1) emptyFrame) }
  else
    { s with led_states := [] }

/-- The `while` loop of main.rs:145-147, with explicit fuel: advance `idx`
while `idx < len && idx * frame_duration <= race_time`. -/
def advanceLoop (fd rt : ℚ) : ℕ → ℕ → ℕ → ℕ
  | 0, idx, _ => idx
  | fuel + 1, idx, len =>
    if idx < len ∧ (idx : ℚ) * fd ≤ rt then advanceLoop fd rt fuel (idx + 1) len else idx

/-- Embeds `PlotApp::update_race` (main.rs:138-152), with `elapsed` the
seconds since `start_time`: when the race is started, set
`race_time = elapsed * speed`, run the index-advancing loop from the current
index, and refresh the led states.  Fuel `frames.length - current_index`
suffices since the loop only advances while `idx < len`. -/
def PlotApp.update_race (elapsed : ℚ) (s : PlotApp) : PlotApp :=
  if s.race_started then
    let rt := elapsed * (s.speed : ℚ)
    let fd := (s.update_rate_ms : ℚ) / 1000
    let next := advanceLoop fd rt (s.frames.length - s.current_index) s.current_index
      s.frames.length
    PlotApp.update_led_states { s with race_time := rt, current_index := next }
  else s

/-- A sequence of `update_race` ticks with the given elapsed readings. -/
def updateRaceSeq (es : List ℚ) (s : PlotApp) : PlotApp :=
  es.foldl (fun st e => PlotApp.update_race e st) s

/-- States reachable from an initial app by `reset` and `update_race`
(main.rs:130-152); the frame list is fixed throughout. -/
inductive Reachable (a : PlotApp) : PlotApp → Prop
  | refl : Reachable a a
  | reset {s : PlotApp} : Reachable a s → Reachable a (PlotApp.reset s)
  | step (e : ℚ) {s : PlotApp} : Reachable a s → Reachable a (PlotApp.update_race e s)

/-- Occupied slots form a contiguous prefix: after the first `none`, every
slot is `none`. -/
def contiguous : List (Option DriverData) → Bool
  | [] => true
  | some _ :: rest => contiguous rest
  | none :: rest => rest.all (fun s => s.isNone)

/-! ## Helper lemmas: spatial resolver -/

lemma sqDist_nonneg (d : LocationData) (c : LedCoordinate) : 0 ≤ sqDist d c := by
  unfold sqDist
  positivity

/-- The `min_by` fold returns the first element of minimal squared distance:
the visited list splits as `l₁ ++ result :: l₂` with every element of `l₁`
strictly farther, and the result is a global minimum. -/
lemma foldl_minByStep_spec (d : LocationData) :
    ∀ (cs : List LedCoordinate) (c : LedCoordinate),
    ∃ l₁ l₂, c :: cs = l₁ ++ (cs.foldl (minByStep d) c) :: l₂ ∧
      (∀ c' ∈ l₁, sqDist d (cs.foldl (minByStep d) c) < sqDist d c') ∧
      (∀ c' ∈ c :: cs, sqDist d (cs.foldl (minByStep d) c) ≤ sqDist d c') := by
  intro cs
  induction cs with
  | nil =>
    intro c
    refine ⟨[], [], by simp, ?_, ?_⟩
    · intro c' hc'
      exact absurd hc' (List.not_mem_nil c')
    · intro c' hc'
      have h1 : c' = c := by simpa using hc'
      subst h1
      simp
  | cons c2 rest ih =>
    intro c
    by_cases hlt : sqDist d c2 < sqDist d c
    · have hstep : (c2 :: rest).foldl (minByStep d) c = rest.foldl (minByStep d) c2 := by
        simp [List.foldl_cons, minByStep, hlt]
      rw [hstep]
      obtain ⟨l₁, l₂, hdec, hstrict, hmin⟩ := ih c2
      refine ⟨c :: l₁, l₂, ?_, ?_, ?_⟩
      · rw [List.cons_append]
        exact congrArg (List.cons c) hdec
      · intro c' hc'
        rcases List.mem_cons.mp hc' with h | h
        · subst h
          exact lt_of_le_of_lt (hmin c2 (List.mem_cons_self _ _)) hlt
        · exact hstrict c' h
      · intro c' hc'
        rcases List.mem_cons.mp hc' with h | h
        · subst h
          exact le_of_lt (lt_of_le_of_lt (hmin c2 (List.mem_cons_self _ _)) hlt)
        · exact hmin c' h
    · have hle : sqDist d c ≤ sqDist d c2 := not_lt.mp hlt
      have hstep : (c2 :: rest).foldl (minByStep d) c = rest.foldl (minByStep d) c := by
        simp [List.foldl_cons, minByStep, hlt]
      rw [hstep]
      obtain ⟨l₁, l₂, hdec, hstrict, hmin⟩ := ih c
      match l₁, hdec with
      | [], hdec =>
        have hr : rest.foldl (minByStep d) c = c := by
          have := (List.cons.injEq _ _ _ _).mp (by simpa using hdec)
          exact this.1.symm
        refine ⟨[], c2 :: rest, by simp [hr], by simp, ?_⟩
        intro c' hc'
        rcases List.mem_cons.mp hc' with h | h
        · subst h
          simp [hr]
        · rcases List.mem_cons.mp h with h2 | h2
          · subst h2
            simpa [hr] using hle
          · exact hmin c' (List.mem_cons_of_mem _ h2)
      | a :: l₁', hdec =>
        have ha : a = c ∧ rest = l₁' ++ rest.foldl (minByStep d) c :: l₂ := by
          have := (List.cons.injEq _ _ _ _).mp (by simpa using hdec)
          exact ⟨this.1.symm, this.2⟩
        have hrc : sqDist d (rest.foldl (minByStep d) c) < sqDist d c := by
          have := hstrict a (List.mem_cons_self _ _)
          rwa [ha.1] at this
        refine ⟨c :: c2 :: l₁', l₂, ?_, ?_, ?_⟩
        · rw [List.cons_append, List.cons_append, ← ha.2]
        · intro c' hc'
          rcases List.mem_cons.mp hc' with h | h
          · subst h
            exact hrc
          · rcases List.mem_cons.mp h with h2 | h2
            · subst h2
              exact lt_of_lt_of_le hrc hle
            · exact hstrict c' (List.mem_cons_of_mem _ h2)
        · intro c' hc'
          rcases List.mem_cons.mp hc' with h | h
          · subst h
            exact le_of_lt hrc
          · rcases List.mem_cons.mp h with h2 | h2
            · subst h2
              exact le_of_lt (lt_of_lt_of_le hrc hle)
            · exact hmin c' (List.mem_cons_of_mem _ h2)

/-! ## Helper lemmas: the playback index loop -/

lemma advanceLoop_ge (fd rt : ℚ) :
    ∀ (fuel idx len : ℕ), idx ≤ advanceLoop fd rt fuel idx len := by
  intro fuel
  induction fuel with
  | zero => intro idx len; exact le_refl _
  | succ n ih =>
    intro idx len
    unfold advanceLoop
    split
    · exact le_trans (Nat.le_succ idx) (ih (idx + 1) len)
    · exact le_refl _

lemma advanceLoop_le (fd rt : ℚ) :
    ∀ (fuel idx len : ℕ), idx ≤ len → advanceLoop fd rt fuel idx len ≤ len := by
  intro fuel
  induction fuel with
  | zero => intro idx len h; exact h
  | succ n ih =>
    intro idx len h
    unfold advanceLoop
    split
    · next hcond => exact ih (idx + 1) len hcond.1
    · exact h

/-- With positive frame duration and nonnegative race time, the while loop
computes `max idx (min (⌊rt / fd⌋ + 1) len)` given sufficient fuel. -/
lemma advanceLoop_eq_max_min (fd rt : ℚ) (hfd : 0 < fd) (hrt : 0 ≤ rt) :
    ∀ (fuel idx len : ℕ), len ≤ idx + fuel →
    advanceLoop fd rt fuel idx len = max idx (min (Nat.floor (rt / fd) + 1) len) := by
  have hdiv : 0 ≤ rt / fd := div_nonneg hrt (le_of_lt hfd)
  have hcond : ∀ idx : ℕ, ((idx : ℚ) * fd ≤ rt) ↔ idx ≤ Nat.floor (rt / fd) := by
    intro idx
    rw [Nat.le_floor_iff hdiv, le_div_iff₀ hfd]
  intro fuel
  induction fuel with
  | zero =>
    intro idx len h
    simp only [Nat.add_zero] at h
    unfold advanceLoop
    omega
  | succ n ih =>
    intro idx len h
    unfold advanceLoop
    split
    · next hc =>
      have h1 : idx < len := hc.1
      have h2 : idx ≤ Nat.floor (rt / fd) := (hcond idx).mp hc.2
      rw [ih (idx + 1) len (by omega)]
      omega
    · next hc =>
      have : ¬ (idx < len) ∨ ¬ ((idx : ℚ) * fd ≤ rt) := by
        by_contra hcon
        push_neg at hcon
        exact hc ⟨hcon.1, hcon.2⟩
      rcases this with h1 | h2
      · omega
      · have : Nat.floor (rt / fd) < idx := by
          by_contra hnot
          exact h2 ((hcond idx).mpr (by omega))
        omega

lemma update_led_states_current_index (s : PlotApp) :
    (PlotApp.update_led_states s).current_index = s.current_index := by
  unfold PlotApp.update_led_states
  split <;> rfl

lemma update_led_states_frames (s : PlotApp) :
    (PlotApp.update_led_states s).frames = s.frames := by
  unfold PlotApp.update_led_states
  split <;> rfl

lemma update_race_frames (e : ℚ) (s : PlotApp) :
    (PlotApp.update_race e s).frames = s.frames := by
  unfold PlotApp.update_race
  split
  · rw [update_led_states_frames]
  · rfl

lemma update_race_index_ge (e : ℚ) (s : PlotApp) :
    s.current_index ≤ (PlotApp.update_race e s).current_index := by
  unfold PlotApp.update_race
  split
  · rw [update_led_states_current_index]
    exact advanceLoop_ge _ _ _ _ _
  · exact le_refl _

lemma update_race_index_le (e : ℚ) (s : PlotApp)
    (h : s.current_index ≤ s.frames.length) :
    (PlotApp.update_race e s).current_index ≤ (PlotApp.update_race e s).frames.length := by
  rw [update_race_frames]
  unfold PlotApp.update_race
  split
  · rw [update_led_states_current_index]
    exact advanceLoop_le _ _ _ _ _ h
  · exact h

/-! ## Helper lemmas: frame builder -/

lemma insertDriver_length (d : DriverData) :
    ∀ l : List (Option DriverData), (insertDriver d l).length = l.length := by
  intro l
  induction l with
  | nil => rfl
  | cons hd tl ih =>
    cases hd with
    | none => rfl
    | some x => simpa [insertDriver] using ih

lemma countP_insertDriver (d : DriverData) :
    ∀ l : List (Option DriverData),
    l.countP (fun s => s.isSome) < l.length →
    (insertDriver d l).countP (fun s => s.isSome) = l.countP (fun s => s.isSome) + 1 := by
  intro l
  induction l with
  | nil => intro h; simp at h
  | cons hd tl ih =>
    intro h
    cases hd with
    | none => simp [insertDriver, List.countP_cons]
    | some x =>
      have htl : tl.countP (fun s => s.isSome) < tl.length := by
        simpa [List.countP_cons] using h
      simp [insertDriver, List.countP_cons, ih htl]

lemma contiguous_of_all_none :
    ∀ l : List (Option DriverData), l.all (fun s => s.isNone) = true → contiguous l = true := by
  intro l
  induction l with
  | nil => intro _; rfl
  | cons hd tl ih =>
    intro h
    cases hd with
    | none =>
      have htl : tl.all (fun s => s.isNone) = true := by simpa using h
      show tl.all (fun s => s.isNone) = true
      exact htl
    | some x => simp at h

lemma contiguous_insertDriver (d : DriverData) :
    ∀ l : List (Option DriverData), contiguous l = true → contiguous (insertDriver d l) = true := by
  intro l
  induction l with
  | nil => intro _; rfl
  | cons hd tl ih =>
    intro h
    cases hd with
    | none =>
      have htl : tl.all (fun s => s.isNone) = true := by simpa [contiguous] using h
      show contiguous (some d :: tl) = true
      show contiguous tl = true
      exact contiguous_of_all_none tl htl
    | some x =>
      have htl : contiguous tl = true := by simpa [contiguous] using h
      show contiguous (some x :: insertDriver d tl) = true
      show contiguous (insertDriver d tl) = true
      exact ih htl

lemma frameFull_iff_countSome (f : UpdateFrame) :
    frameFull f = true ↔ countSome f = f.drivers.length := by
  unfold frameFull countSome
  rw [List.all_eq_true, List.countP_eq_length]

lemma countSome_le_length (f : UpdateFrame) : countSome f ≤ f.drivers.length :=
  List.countP_le_length _

lemma countSome_eq_zero_of_not_hasAny (f : UpdateFrame) (h : frameHasAny f = false) :
    countSome f = 0 := by
  unfold frameHasAny at h
  unfold countSome
  rw [List.countP_eq_zero]
  intro a ha hpa
  have ht : f.drivers.any (fun s => s.isSome) = true :=
    List.any_eq_true.mpr ⟨a, ha, hpa⟩
  rw [h] at ht
  cases ht

lemma countSome_pos_of_eq_twenty (f : UpdateFrame) (h : countSome f = 20) :
    frameHasAny f = true := by
  by_contra hn
  have h0 := countSome_eq_zero_of_not_hasAny f (by simpa using hn)
  omega

lemma emptyFrame_length : emptyFrame.drivers.length = 20 := by decide

lemma emptyFrame_countSome : countSome emptyFrame = 0 := by decide

lemma emptyFrame_contiguous : contiguous emptyFrame.drivers = true := by decide

lemma nearestCoord_isSome (d : LocationData) (coords : List LedCoordinate)
    (h : coords ≠ []) : ∃ c, nearestCoord d coords = some c := by
  cases coords with
  | nil => exact absurd rfl h
  | cons c0 cs => exact ⟨cs.foldl (minByStep d) c0, rfl⟩

lemma sumAssign_append_one (fs : List UpdateFrame) (f : UpdateFrame) :
    sumAssign (fs ++ [f]) = sumAssign fs + countSome f := by
  simp [sumAssign]

/-- Invariant of the frame-building fold: sealed frames are full (20 slots,
all occupied, contiguous), the open frame has 20 slots, fewer than 20
occupied, contiguously, and no assignment is lost. -/
lemma gen_fold_spec (coords : List LedCoordinate) (hc : coords ≠ []) :
    ∀ (raw : List LocationData) (fs : List UpdateFrame) (op : UpdateFrame),
    (∀ f ∈ fs, f.drivers.length = 20 ∧ countSome f = 20 ∧ contiguous f.drivers = true) →
    op.drivers.length = 20 → countSome op < 20 → contiguous op.drivers = true →
    (∀ f ∈ (raw.foldl (genStep coords) (fs, op)).1,
        f.drivers.length = 20 ∧ countSome f = 20 ∧ contiguous f.drivers = true) ∧
    ((raw.foldl (genStep coords) (fs, op)).2).drivers.length = 20 ∧
    countSome (raw.foldl (genStep coords) (fs, op)).2 < 20 ∧
    contiguous ((raw.foldl (genStep coords) (fs, op)).2).drivers = true ∧
    sumAssign (raw.foldl (genStep coords) (fs, op)).1 +
        countSome (raw.foldl (genStep coords) (fs, op)).2 =
      sumAssign fs + countSome op + raw.length := by
  intro raw
  induction raw with
  | nil =>
    intro fs op hfs hlen hcount hcont
    exact ⟨hfs, hlen, hcount, hcont, by simp⟩
  | cons data raw' ih =>
    intro fs op hfs hlen hcount hcont
    obtain ⟨c, hc'⟩ := nearestCoord_isSome data coords hc
    have hstep : (data :: raw').foldl (genStep coords) (fs, op) =
        raw'.foldl (genStep coords) (genStep coords (fs, op) data) := rfl
    set dd : DriverData := ⟨data.driver_number, c.led_number⟩ with hdd
    set f' : UpdateFrame := ⟨insertDriver dd op.drivers⟩ with hf'
    have hlen' : f'.drivers.length = 20 := by
      rw [hf']
      simpa [insertDriver_length] using hlen
    have hcount' : countSome f' = countSome op + 1 := by
      rw [hf']
      exact countP_insertDriver dd op.drivers (by rw [hlen]; exact hcount)
    have hcont' : contiguous f'.drivers = true := by
      rw [hf']
      exact contiguous_insertDriver dd op.drivers hcont
    have hgen : genStep coords (fs, op) data =
        if frameFull f' then (fs ++ [f'], emptyFrame) else (fs, f') := by
      unfold genStep
      rw [hc']
    by_cases hfull : frameFull f' = true
    · have hc20 : countSome f' = 20 := by
        rw [(frameFull_iff_countSome f').mp hfull, hlen']
      rw [hstep, hgen, if_pos hfull]
      have := ih (fs ++ [f']) emptyFrame
        (by
          intro f hf
          rcases List.mem_append.mp hf with h | h
          · exact hfs f h
          · have : f = f' := by simpa using h
            subst this
            exact ⟨hlen', hc20, hcont'⟩)
        emptyFrame_length (by rw [emptyFrame_countSome]; omega) emptyFrame_contiguous
      refine ⟨this.1, this.2.1, this.2.2.1, this.2.2.2.1, ?_⟩
      rw [this.2.2.2.2, sumAssign_append_one, emptyFrame_countSome, hc20, List.length_cons]
      have h19 : countSome op = 19 := by omega
      omega
    · have hlt : countSome f' < 20 := by
        have hle := countSome_le_length f'
        rw [hlen'] at hle
        have : countSome f' ≠ 20 := by
          intro hcontra
          exact hfull ((frameFull_iff_countSome f').mpr (by rw [hcontra, hlen']))
        omega
      rw [hstep, hgen, if_neg hfull]
      have := ih fs f' hfs hlen' hlt hcont'
      refine ⟨this.1, this.2.1, this.2.2.1, this.2.2.2.1, ?_⟩
      rw [this.2.2.2.2, hcount', List.length_cons]
      omega

/-! ## Helper lemmas: acquisition -/

lemma keepSample_of_mem_fetchLoop (resp : ℕ → ℕ → FetchResult) :
    ∀ (l : List ℕ) (d : LocationData), d ∈ fetchLoop resp l → keepSample d = true := by
  intro l
  induction l with
  | nil => intro d hd; simp [fetchLoop] at hd
  | cons dn rest ih =>
    intro d hd
    unfold fetchLoop at hd
    rcases List.mem_append.mp hd with h | h
    · cases hresp : resp dn 0 with
      | success data =>
        rw [hresp] at h
        exact (List.mem_filter.mp h).2
      | rateLimited => rw [hresp] at h; simp at h
      | failure => rw [hresp] at h; simp at h
    · exact ih d h

lemma fetchLoop_congr (resp resp' : ℕ → ℕ → FetchResult)
    (h : ∀ n, resp n 0 = resp' n 0) :
    ∀ l : List ℕ, fetchLoop resp l = fetchLoop resp' l := by
  intro l
  induction l with
  | nil => rfl
  | cons dn rest ih =>
    unfold fetchLoop
    rw [h dn, ih]

/-! ## Helper lemmas: stable sorting by date -/

lemma mem_insertByDate (d x : LocationData) :
    ∀ l : List LocationData, x ∈ insertByDate d l ↔ x = d ∨ x ∈ l := by
  intro l
  induction l with
  | nil => simp [insertByDate]
  | cons e es ih =>
    unfold insertByDate
    split
    · simp only [List.mem_cons, ih]
      tauto
    · simp only [List.mem_cons]

lemma pairwise_insertByDate (d : LocationData) :
    ∀ l : List LocationData,
    List.Pairwise (fun a b : LocationData => a.date ≤ b.date) l →
    List.Pairwise (fun a b : LocationData => a.date ≤ b.date) (insertByDate d l) := by
  intro l
  induction l with
  | nil => intro _; simp [insertByDate]
  | cons e es ih =>
    intro h
    rw [List.pairwise_cons] at h
    unfold insertByDate
    split
    · next hlt =>
      rw [List.pairwise_cons]
      refine ⟨?_, ih h.2⟩
      intro x hx
      rcases (mem_insertByDate d x es).mp hx with h1 | h1
      · subst h1
        exact le_of_lt hlt
      · exact h.1 x h1
    · next hge =>
      rw [List.pairwise_cons]
      refine ⟨?_, List.pairwise_cons.mpr h⟩
      intro x hx
      rcases List.mem_cons.mp hx with h1 | h1
      · subst h1
        exact not_lt.mp hge
      · exact le_trans (not_lt.mp hge) (h.1 x h1)

lemma filter_insertByDate (t : ℤ) (d : LocationData) :
    ∀ l : List LocationData,
    (insertByDate d l).filter (fun e => decide (e.date = t)) =
      if d.date = t then d :: l.filter (fun e => decide (e.date = t))
      else l.filter (fun e => decide (e.date = t)) := by
  intro l
  induction l with
  | nil =>
    unfold insertByDate
    by_cases hd : d.date = t <;> simp [List.filter, hd]
  | cons e es ih =>
    unfold insertByDate
    split
    · next hlt =>
      by_cases hd : d.date = t
      · have het : ¬ e.date = t := by
          intro het
          rw [het, ← hd] at hlt
          exact lt_irrefl _ hlt
        simp [List.filter_cons, het, ih, hd]
      · simp [List.filter_cons, ih, hd]
    · next hge =>
      by_cases hd : d.date = t <;> simp [List.filter_cons, hd]

lemma perm_insertByDate (d : LocationData) :
    ∀ l : List LocationData, List.Perm (insertByDate d l) (d :: l) := by
  intro l
  induction l with
  | nil => simp [insertByDate]
  | cons e es ih =>
    unfold insertByDate
    split
    · exact List.Perm.trans (List.Perm.cons e ih) (List.Perm.swap d e es)
    · exact List.Perm.refl _

lemma pairwise_sortByDate :
    ∀ l : List LocationData,
    List.Pairwise (fun a b : LocationData => a.date ≤ b.date) (sortByDate l) := by
  intro l
  induction l with
  | nil => simp [sortByDate]
  | cons d rest ih => exact pairwise_insertByDate d (sortByDate rest) ih

lemma filter_sortByDate (t : ℤ) :
    ∀ l : List LocationData,
    (sortByDate l).filter (fun e => decide (e.date = t)) =
      l.filter (fun e => decide (e.date = t)) := by
  intro l
  induction l with
  | nil => rfl
  | cons d rest ih =>
    show (insertByDate d (sortByDate rest)).filter (fun e => decide (e.date = t)) = _
    rw [filter_insertByDate, List.filter_cons]
    by_cases hd : d.date = t <;> simp [hd, ih]

lemma perm_sortByDate :
    ∀ l : List LocationData, List.Perm (sortByDate l) l := by
  intro l
  induction l with
  | nil => exact List.Perm.refl _
  | cons d rest ih =>
    exact List.Perm.trans (perm_insertByDate d (sortByDate rest)) (List.Perm.cons d ih)

lemma updateRaceSeq_index_ge (es : List ℚ) :
    ∀ s : PlotApp, s.current_index ≤ (updateRaceSeq es s).current_index := by
  induction es with
  | nil => intro s; exact le_refl _
  | cons e es ih =>
    intro s
    exact le_trans (update_race_index_ge e s) (ih (PlotApp.update_race e s))

/-! ## Claim theorems -/

/-- C1: for every sample and every nonempty coordinate set, the spatial
resolution step of `generate_update_frames` returns the position minimizing
the Euclidean distance `sqrt((x - x_p)^2 + (y - y_p)^2)`, and when several
positions are at exactly equal minimal distance, the one encountered first
in iteration order is chosen (all positions strictly before the returned one
are strictly farther). -/
theorem C1_nearest_position (d : LocationData) (coords : List LedCoordinate)
    (h : coords ≠ []) :
    ∃ c l₁ l₂, nearestCoord d coords = some c ∧ coords = l₁ ++ c :: l₂ ∧
      (∀ c' ∈ coords, Real.sqrt ((sqDist d c : ℝ)) ≤ Real.sqrt ((sqDist d c' : ℝ))) ∧
      (∀ c' ∈ l₁, Real.sqrt ((sqDist d c : ℝ)) < Real.sqrt ((sqDist d c' : ℝ))) := by
  cases coords with
  | nil => exact absurd rfl h
  | cons c0 cs =>
    obtain ⟨l₁, l₂, hdec, hstrict, hmin⟩ := foldl_minByStep_spec d cs c0
    refine ⟨cs.foldl (minByStep d) c0, l₁, l₂, rfl, hdec, ?_, ?_⟩
    · intro c' hc'
      exact Real.sqrt_le_sqrt (by exact_mod_cast hmin c' hc')
    · intro c' hc'
      have h0 : (0:ℝ) ≤ (sqDist d (cs.foldl (minByStep d) c0) : ℝ) := by
        exact_mod_cast sqDist_nonneg d _
      exact Real.sqrt_lt_sqrt h0 (by exact_mod_cast hstrict c' hc')

/-- Witness for C1 at the spec's concrete scenario A: positions `(0,0)` (led
1) and `(10,0)` (led 2), sample at `(4,0)`. -/
theorem C1_nearest_position_witness :
    ∃ c l₁ l₂,
      nearestCoord ⟨4, 0, 0, 7⟩ [⟨0, 0, 1⟩, ⟨10, 0, 2⟩] = some c ∧
      ([⟨0, 0, 1⟩, ⟨10, 0, 2⟩] : List LedCoordinate) = l₁ ++ c :: l₂ ∧
      (∀ c' ∈ ([⟨0, 0, 1⟩, ⟨10, 0, 2⟩] : List LedCoordinate),
        Real.sqrt ((sqDist ⟨4, 0, 0, 7⟩ c : ℝ)) ≤ Real.sqrt ((sqDist ⟨4, 0, 0, 7⟩ c' : ℝ))) ∧
      (∀ c' ∈ l₁,
        Real.sqrt ((sqDist ⟨4, 0, 0, 7⟩ c : ℝ)) < Real.sqrt ((sqDist ⟨4, 0, 0, 7⟩ c' : ℝ))) :=
  C1_nearest_position ⟨4, 0, 0, 7⟩ [⟨0, 0, 1⟩, ⟨10, 0, 2⟩] (by simp)

/-- Concrete state for claim C2's scenario D: `update_rate_ms = 100`
(frame duration 0.1 s), 5 stored frames, race started, speed 1, index 0. -/
def appC2 : PlotApp :=
  { update_rate_ms := 100
    frames := List.replicate 5 emptyFrame
    led_coordinates := []
    race_time := 0
    race_started := true
    driver_info := []
    current_index := 0
    led_states := []
    speed := 1 }

/-- C2 counterexample: at elapsed 0.35 s with speed 1, frame duration 0.1 s
and 5 frames, `update_race` sets `current_index` to 4, not to
`min(floor(0.35 / 0.1), 5 - 1) = 3` as the claim states: the loop advances
one past the floor (the active frame is `frames[current_index - 1]`). -/
theorem C2_counterexample :
    (PlotApp.update_race (7 / 20) appC2).current_index = 4 ∧
    (PlotApp.update_race (7 / 20) appC2).current_index ≠
      min (Nat.floor ((7 / 20 : ℚ) * ((1 : ℤ) : ℚ) / ((100 : ℚ) / 1000))) (5 - 1) := by
  have h35 : Nat.floor ((7 : ℚ) / 2) = 3 := by
    rw [Nat.floor_eq_iff (by norm_num)]
    norm_num
  have heval : (PlotApp.update_race (7 / 20) appC2).current_index = 4 := by
    unfold PlotApp.update_race
    rw [if_pos (show appC2.race_started = true from rfl), update_led_states_current_index]
    rw [advanceLoop_eq_max_min ((appC2.update_rate_ms : ℚ) / 1000)
      ((7 / 20 : ℚ) * (appC2.speed : ℚ)) (by norm_num [appC2]) (by norm_num [appC2])
      (appC2.frames.length - appC2.current_index) appC2.current_index appC2.frames.length
      (by omega)]
    norm_num [appC2, h35]
  refine ⟨heval, ?_⟩
  rw [heval]
  norm_num [h35]

/-- C2 amended: while the race is started, with a positive frame-duration
configuration and nonnegative elapsed time and speed, `update_race` sets
`current_index` to
`max current_index (min (floor(race_time / frame_duration) + 1) frame_count)`
— the one-past playback cursor (so the claim's concrete scenario yields 4,
not 3; the active frame `frames[current_index - 1]` is frame 3).  When
`frame_count = 0` the index stays at its previous value (0 from a start). -/
theorem C2_amended (s : PlotApp) (e : ℚ) (h1 : s.race_started = true)
    (h2 : 0 < s.update_rate_ms) (h3 : 0 ≤ e) (h4 : 0 ≤ s.speed) :
    (PlotApp.update_race e s).current_index =
      max s.current_index
        (min (Nat.floor (e * (s.speed : ℚ) / ((s.update_rate_ms : ℚ) / 1000)) + 1)
          s.frames.length) := by
  have hq : (0:ℚ) < (s.update_rate_ms : ℚ) := by exact_mod_cast h2
  have hfd : (0:ℚ) < (s.update_rate_ms : ℚ) / 1000 := by positivity
  have hrt : (0:ℚ) ≤ e * (s.speed : ℚ) := mul_nonneg h3 (by exact_mod_cast h4)
  unfold PlotApp.update_race
  rw [if_pos h1, update_led_states_current_index]
  exact advanceLoop_eq_max_min _ _ hfd hrt _ _ _ (by omega)

/-- Witness for C2's amended statement at the concrete scenario D state. -/
theorem C2_amended_witness :
    (PlotApp.update_race (7 / 20) appC2).current_index =
      max appC2.current_index
        (min (Nat.floor ((7 / 20 : ℚ) * (appC2.speed : ℚ) /
            ((appC2.update_rate_ms : ℚ) / 1000)) + 1)
          appC2.frames.length) :=
  C2_amended appC2 (7 / 20) rfl (by decide) (by norm_num) (by decide)

/-- C7: `current_index` is non-decreasing across any sequence of
`update_race` ticks while the race is started, and `reset` (the STOP action)
sets `current_index` to 0, `race_time` to 0 and `race_started` to false. -/
theorem C7_monotone_and_reset (s : PlotApp) (es : List ℚ) (h : s.race_started = true) :
    s.current_index ≤ (updateRaceSeq es s).current_index ∧
    (PlotApp.reset s).current_index = 0 ∧
    (PlotApp.reset s).race_time = 0 ∧
    (PlotApp.reset s).race_started = false :=
  ⟨updateRaceSeq_index_ge es s, rfl, rfl, rfl⟩

/-- Concrete started state for claim C7's witness. -/
def appC7 : PlotApp :=
  { update_rate_ms := 100
    frames := List.replicate 3 emptyFrame
    led_coordinates := []
    race_time := 0
    race_started := true
    driver_info := []
    current_index := 0
    led_states := []
    speed := 2 }

/-- Witness for C7 on two concrete ticks. -/
theorem C7_monotone_and_reset_witness :
    appC7.current_index ≤ (updateRaceSeq [1 / 2, 1] appC7).current_index ∧
    (PlotApp.reset appC7).current_index = 0 ∧
    (PlotApp.reset appC7).race_time = 0 ∧
    (PlotApp.reset appC7).race_started = false :=
  C7_monotone_and_reset appC7 [1 / 2, 1] rfl

/-- C10: for every state reachable from `PlotApp::new` via `reset` and
`update_race` ticks, `current_index ≤ frames.len()`; hence the access
`frames[current_index - 1]` guarded by `current_index > 0` in
`update_led_states` is in bounds, and with `current_index = 0`
`update_led_states` leaves the led-state map empty. -/
theorem C10_reachable_safe (rate : ℕ) (frames : List UpdateFrame)
    (coords : List LedCoordinate) (info : List DriverInfo) (s : PlotApp)
    (h : Reachable (PlotApp.new rate frames coords info) s) :
    s.current_index ≤ s.frames.length ∧
    (0 < s.current_index → s.current_index - 1 < s.frames.length) ∧
    (s.current_index = 0 → (PlotApp.update_led_states s).led_states = []) := by
  have hinv : s.current_index ≤ s.frames.length := by
    induction h with
    | refl => exact Nat.zero_le _
    | reset h ih => exact Nat.zero_le _
    | step e h ih => exact update_race_index_le e _ ih
  refine ⟨hinv, by omega, ?_⟩
  intro h0
  unfold PlotApp.update_led_states
  rw [if_neg (by omega)]

/-- Witness for C10 at the freshly constructed app. -/
theorem C10_reachable_safe_witness :
    (PlotApp.new 100 [] [] []).current_index ≤ (PlotApp.new 100 [] [] []).frames.length ∧
    (0 < (PlotApp.new 100 [] [] []).current_index →
      (PlotApp.new 100 [] [] []).current_index - 1 < (PlotApp.new 100 [] [] []).frames.length) ∧
    ((PlotApp.new 100 [] [] []).current_index = 0 →
      (PlotApp.update_led_states (PlotApp.new 100 [] [] [])).led_states = []) :=
  C10_reachable_safe 100 [] [] [] (PlotApp.new 100 [] [] []) Reachable.refl

/-- The sample `(0, 5)` of claim C3's counterexample: not at the origin, yet
on the y-axis. -/
def dC3 : LocationData := ⟨0, 5, 0, 1⟩

/-- Response environment where driver 1's query succeeds with `[dC3]`. -/
def respC3 : ℕ → ℕ → FetchResult :=
  fun dn _ => if dn = 1 then FetchResult.success [dC3] else FetchResult.success []

/-- C3 counterexample: the successfully fetched sample `(0, 5)` differs from
the sentinel origin `(0, 0)` yet is discarded before accumulation — the
filter `d.x != 0.0 && d.y != 0.0` keeps a sample only when *both*
coordinates are nonzero, not only at `(0, 0)`. -/
theorem C3_counterexample :
    ¬(dC3.x = 0 ∧ dC3.y = 0) ∧
    respC3 1 0 = FetchResult.success [dC3] ∧
    dC3 ∉ fetchLoop respC3 driver_numbers := by
  refine ⟨by decide, rfl, by decide⟩

/-- C3 amended: a fetched sample is retained into the accumulator if and
only if both of its coordinates are nonzero (so `(0, 0)` is discarded, but
so is every sample with `x = 0` or `y = 0`). -/
theorem C3_amended (resp : ℕ → ℕ → FetchResult) (dn : ℕ) (rest : List ℕ)
    (data : List LocationData) (d : LocationData)
    (h1 : resp dn 0 = FetchResult.success data) (h2 : d ∈ data) :
    d ∈ fetchLoop resp (dn :: rest) ↔ (d.x ≠ 0 ∧ d.y ≠ 0) := by
  constructor
  · intro hd
    have hk := keepSample_of_mem_fetchLoop resp (dn :: rest) d hd
    unfold keepSample at hk
    simpa using hk
  · intro hxy
    unfold fetchLoop
    rw [h1]
    apply List.mem_append_left
    refine List.mem_filter.mpr ⟨h2, ?_⟩
    unfold keepSample
    simp [hxy.1, hxy.2]

/-- A valid sample, away from both axes. -/
def dGood : LocationData := ⟨3, 4, 0, 1⟩

/-- Response environment where every request succeeds with `[dGood]`. -/
def respC3w : ℕ → ℕ → FetchResult := fun _ _ => FetchResult.success [dGood]

/-- Witness for C3's amended statement. -/
theorem C3_amended_witness :
    dGood ∈ fetchLoop respC3w (1 :: []) ↔ (dGood.x ≠ 0 ∧ dGood.y ≠ 0) :=
  C3_amended respC3w 1 [] [dGood] dGood rfl (List.mem_singleton_self dGood)

/-- Response environment for claim C4's scenario: driver 1 is rate-limited
on attempts 0, 1 and 2 and would succeed with `[dGood]` on attempt 3; every
other driver returns no data. -/
def respC4 : ℕ → ℕ → FetchResult := fun dn attempt =>
  if dn = 1 then
    (if attempt ≤ 2 then FetchResult.rateLimited else FetchResult.success [dGood])
  else FetchResult.success []

/-- C4 counterexample: a window that is rate-limited 3 times and would then
succeed is never retried by `fetch_data` — there is no backoff loop at all:
the driver's query is abandoned after the single attempt 0, and the
attempt-3 result is never accepted (the output is empty). -/
theorem C4_counterexample :
    respC4 1 0 = FetchResult.rateLimited ∧
    respC4 1 3 = FetchResult.success [dGood] ∧
    fetch_data respC4 = [] := by
  refine ⟨rfl, rfl, by decide⟩

/-- C4 amended: the acquisition loop performs no retries and no backoff:
its output depends only on each driver's attempt-0 response, and a
rate-limited driver is abandoned immediately, contributing no samples. -/
theorem C4_amended (resp resp' : ℕ → ℕ → FetchResult) (dn : ℕ) (rest : List ℕ)
    (h : ∀ n, resp n 0 = resp' n 0) (hrl : resp dn 0 = FetchResult.rateLimited) :
    fetch_data resp = fetch_data resp' ∧
    fetchLoop resp (dn :: rest) = fetchLoop resp rest := by
  constructor
  · unfold fetch_data
    rw [fetchLoop_congr resp resp' h]
  · show (match resp dn 0 with
      | FetchResult.success data => data.filter keepSample
      | _ => ([] : List LocationData)) ++ fetchLoop resp rest = fetchLoop resp rest
    rw [hrl]
    exact List.nil_append _

/-- First environment for C4's witness: rate-limited at attempt 0, failing
afterwards. -/
def respC4w1 : ℕ → ℕ → FetchResult :=
  fun _ a => if a = 0 then FetchResult.rateLimited else FetchResult.failure

/-- Second environment for C4's witness: always rate-limited; agrees with
`respC4w1` at attempt 0. -/
def respC4w2 : ℕ → ℕ → FetchResult := fun _ _ => FetchResult.rateLimited

/-- Witness for C4's amended statement. -/
theorem C4_amended_witness :
    fetch_data respC4w1 = fetch_data respC4w2 ∧
    fetchLoop respC4w1 (5 :: [7]) = fetchLoop respC4w1 [7] :=
  C4_amended respC4w1 respC4w2 5 [7] (fun _ => rfl) rfl

/-- C5: every produced frame holds at most `K = 20` assignments, and the
total number of assignments across all produced frames equals the number of
input samples — nothing is dropped, duplicates included. -/
theorem C5_capacity_and_conservation (raw : List LocationData)
    (coords : List LedCoordinate) (hc : coords ≠ []) :
    (∀ f ∈ generate_update_frames raw coords, countSome f ≤ 20) ∧
    sumAssign (generate_update_frames raw coords) = raw.length := by
  obtain ⟨hsealed, hlen2, hlt2, hcont2, hsum⟩ :=
    gen_fold_spec coords hc raw [] emptyFrame
      (by intro f hf; exact absurd hf (List.not_mem_nil f))
      emptyFrame_length (by rw [emptyFrame_countSome]; omega) emptyFrame_contiguous
  have hsum' : sumAssign (raw.foldl (genStep coords) ([], emptyFrame)).1 +
      countSome (raw.foldl (genStep coords) ([], emptyFrame)).2 = raw.length := by
    simpa [sumAssign, emptyFrame_countSome] using hsum
  unfold generate_update_frames
  by_cases hlast : frameHasAny (raw.foldl (genStep coords) ([], emptyFrame)).2 = true
  · rw [if_pos hlast]
    constructor
    · intro f hf
      rcases List.mem_append.mp hf with h | h
      · have := (hsealed f h).2.1
        omega
      · have hf2 : f = (raw.foldl (genStep coords) ([], emptyFrame)).2 := by simpa using h
        rw [hf2]
        omega
    · rw [sumAssign_append_one]
      omega
  · rw [if_neg hlast]
    have h0 : countSome (raw.foldl (genStep coords) ([], emptyFrame)).2 = 0 :=
      countSome_eq_zero_of_not_hasAny _ (by simpa using hlast)
    constructor
    · intro f hf
      have := (hsealed f hf).2.1
      omega
    · omega

/-- Witness for C5 on a concrete two-sample input. -/
theorem C5_capacity_and_conservation_witness :
    (∀ f ∈ generate_update_frames
        ([⟨4, 0, 0, 7⟩, ⟨6, 1, 1, 9⟩] : List LocationData)
        ([⟨0, 0, 1⟩] : List LedCoordinate), countSome f ≤ 20) ∧
    sumAssign (generate_update_frames
        ([⟨4, 0, 0, 7⟩, ⟨6, 1, 1, 9⟩] : List LocationData)
        ([⟨0, 0, 1⟩] : List LedCoordinate)) =
      ([⟨4, 0, 0, 7⟩, ⟨6, 1, 1, 9⟩] : List LocationData).length :=
  C5_capacity_and_conservation _ _ (by simp)

/-- C6: the trailing open frame is appended only when it holds at least one
assignment: the empty input yields no frames at all, and every frame in the
output has at least one occupied slot (never all 20 slots `None`). -/
theorem C6_no_empty_frame (raw : List LocationData) (coords : List LedCoordinate)
    (hc : coords ≠ []) :
    generate_update_frames [] coords = [] ∧
    ∀ f ∈ generate_update_frames raw coords, frameHasAny f = true := by
  constructor
  · rfl
  · obtain ⟨hsealed, hlen2, hlt2, hcont2, hsum⟩ :=
      gen_fold_spec coords hc raw [] emptyFrame
        (by intro f hf; exact absurd hf (List.not_mem_nil f))
        emptyFrame_length (by rw [emptyFrame_countSome]; omega) emptyFrame_contiguous
    unfold generate_update_frames
    by_cases hlast : frameHasAny (raw.foldl (genStep coords) ([], emptyFrame)).2 = true
    · rw [if_pos hlast]
      intro f hf
      rcases List.mem_append.mp hf with h | h
      · exact countSome_pos_of_eq_twenty f (hsealed f h).2.1
      · have hf2 : f = (raw.foldl (genStep coords) ([], emptyFrame)).2 := by simpa using h
        rw [hf2]
        exact hlast
    · rw [if_neg hlast]
      intro f hf
      exact countSome_pos_of_eq_twenty f (hsealed f hf).2.1

/-- Witness for C6 on a concrete input. -/
theorem C6_no_empty_frame_witness :
    generate_update_frames [] ([⟨2, 3, 5⟩] : List LedCoordinate) = [] ∧
    ∀ f ∈ generate_update_frames ([⟨1, 1, 0, 2⟩] : List LocationData)
        ([⟨2, 3, 5⟩] : List LedCoordinate), frameHasAny f = true :=
  C6_no_empty_frame _ _ (by simp)

/-- C9: in every produced frame the occupied slots form a contiguous prefix
of the 20-slot array (no `Some` after a `None`), and every frame except
possibly the last has all 20 slots occupied. -/
theorem C9_contiguous_and_full (raw : List LocationData) (coords : List LedCoordinate)
    (hc : coords ≠ []) :
    (∀ f ∈ generate_update_frames raw coords,
        contiguous f.drivers = true ∧ f.drivers.length = 20) ∧
    (∀ f ∈ (generate_update_frames raw coords).dropLast, countSome f = 20) := by
  obtain ⟨hsealed, hlen2, hlt2, hcont2, hsum⟩ :=
    gen_fold_spec coords hc raw [] emptyFrame
      (by intro f hf; exact absurd hf (List.not_mem_nil f))
      emptyFrame_length (by rw [emptyFrame_countSome]; omega) emptyFrame_contiguous
  unfold generate_update_frames
  by_cases hlast : frameHasAny (raw.foldl (genStep coords) ([], emptyFrame)).2 = true
  · rw [if_pos hlast]
    constructor
    · intro f hf
      rcases List.mem_append.mp hf with h | h
      · exact ⟨(hsealed f h).2.2, (hsealed f h).1⟩
      · have hf2 : f = (raw.foldl (genStep coords) ([], emptyFrame)).2 := by simpa using h
        rw [hf2]
        exact ⟨hcont2, hlen2⟩
    · intro f hf
      rw [List.dropLast_concat] at hf
      exact (hsealed f hf).2.1
  · rw [if_neg hlast]
    constructor
    · intro f hf
      exact ⟨(hsealed f hf).2.2, (hsealed f hf).1⟩
    · intro f hf
      exact (hsealed f ((List.dropLast_sublist _).mem hf)).2.1

/-- Witness for C9 on a concrete input. -/
theorem C9_contiguous_and_full_witness :
    (∀ f ∈ generate_update_frames ([⟨5, 6, 2, 4⟩] : List LocationData)
        ([⟨1, 0, 8⟩] : List LedCoordinate),
        contiguous f.drivers = true ∧ f.drivers.length = 20) ∧
    (∀ f ∈ (generate_update_frames ([⟨5, 6, 2, 4⟩] : List LocationData)
        ([⟨1, 0, 8⟩] : List LedCoordinate)).dropLast, countSome f = 20) :=
  C9_contiguous_and_full _ _ (by simp)

/-- C8: the accumulated sample list handed to the frame builder is sorted by
ascending timestamp, is a permutation of the accumulated samples, and the
sort is stable: for each timestamp, the subsequence of samples carrying it
is exactly the accumulation-order subsequence. -/
theorem C8_sorted_stable (resp : ℕ → ℕ → FetchResult) :
    List.Pairwise (fun a b : LocationData => a.date ≤ b.date) (fetch_data resp) ∧
    List.Perm (fetch_data resp) (fetchLoop resp driver_numbers) ∧
    ∀ t : ℤ, (fetch_data resp).filter (fun e => decide (e.date = t)) =
      (fetchLoop resp driver_numbers).filter (fun e => decide (e.date = t)) :=
  ⟨pairwise_sortByDate _, perm_sortByDate _, fun t => filter_sortByDate t _⟩

end F1Led
